import Mathlib

/-!
Verification of the kinematic conversion and mutation logic of
`src/physics/Particle.cc` (MATHUSLA Mu-Simulation), modelled over the reals.

The C++ source computes with IEEE doubles; here every quantity is a real
number, so the "within floating-point tolerance" clauses of the design
document become exact equalities.  External collaborators (the CLHEP
`G4ThreeVector` arithmetic and the Geant4 particle table) are modelled by
their mathematical contracts: the vector type as a triple of reals, the
particle table as a total function from integer identifiers to particle
definitions.
-/

open Real Filter

noncomputable section

namespace Physics

/-- Real model of `std::atanh`: `atanh t = log ((1 + t) / (1 - t)) / 2`. -/
def artanh (t : ℝ) : ℝ := Real.log ((1 + t) / (1 - t)) / 2

/-- Real model of `std::atan2 y x`: the argument of the complex number `x + y i`,
valued in `(-π, π]`, with `atan2 0 0 = 0`. -/
def atan2 (y x : ℝ) : ℝ := Complex.arg ⟨x, y⟩

/-- External CLHEP vector type `G4ThreeVector`: an ordered triple of reals. -/
structure G4ThreeVector where
  x : ℝ
  y : ℝ
  z : ℝ
deriving DecidableEq

/-- `G4ThreeVector::mag`: the Euclidean magnitude. -/
def G4ThreeVector.mag (v : G4ThreeVector) : ℝ := Real.sqrt (v.x ^ 2 + v.y ^ 2 + v.z ^ 2)

/-- `G4ThreeVector::unit`: componentwise division by the magnitude.  For the zero
vector this yields the zero vector again, exactly as CLHEP's `unit()` does. -/
def G4ThreeVector.unit (v : G4ThreeVector) : G4ThreeVector :=
  ⟨v.x / v.mag, v.y / v.mag, v.z / v.mag⟩

/-- Scalar multiplication `r * v` on `G4ThreeVector`. -/
def G4ThreeVector.smul (r : ℝ) (v : G4ThreeVector) : G4ThreeVector :=
  ⟨r * v.x, r * v.y, r * v.z⟩

/-- `PseudoLorentzTriplet`: transverse momentum, pseudorapidity, azimuthal angle.
The default-constructed value `{}` is `{0, 0, 0}`. -/
structure PseudoLorentzTriplet where
  pT : ℝ
  eta : ℝ
  phi : ℝ
deriving DecidableEq

/-- `Convert(const G4ThreeVector&)` from `src/physics/Particle.cc:29`:
Cartesian momentum to pseudo-Lorentz triplet.  The longitudinal axis is the
first Cartesian coordinate. -/
def ConvertToTriplet (momentum : G4ThreeVector) : PseudoLorentzTriplet :=
  let magnitude := momentum.mag
  if magnitude = 0 then ⟨0, 0, 0⟩
  else
    let eta := artanh (momentum.x / magnitude)
    ⟨magnitude / Real.cosh eta, eta, atan2 momentum.y (-momentum.z)⟩

/-- `Convert(const PseudoLorentzTriplet&)` from `src/physics/Particle.cc:39`:
pseudo-Lorentz triplet back to Cartesian momentum. -/
def ConvertToVector (triplet : PseudoLorentzTriplet) : G4ThreeVector :=
  ⟨triplet.pT * Real.sinh triplet.eta,
   triplet.pT * Real.sin triplet.phi,
   -(triplet.pT * Real.cos triplet.phi)⟩

/-- External Geant4 particle definition: the three properties the source reads. -/
structure G4ParticleDefinition where
  pdgMass : ℝ
  pdgCharge : ℝ
  particleName : String

/-- The external Geant4 particle table, modelled as a total lookup function.
`_get_particle_def` in the source forwards to `G4ParticleTable::FindParticle`. -/
def ParticleTable : Type := ℤ → G4ParticleDefinition

/-- `_get_particle_property`: return `default_value` when `id = 0`, otherwise
read property `f` from the table entry for `id`. -/
def _get_particle_property {α : Type} (tbl : ParticleTable) (id : ℤ)
    (f : G4ParticleDefinition → α) (default_value : α) : α :=
  if id = 0 then default_value else f (tbl id)

/-- `GetParticleMass` from `src/physics/Particle.cc:67`. -/
def GetParticleMass (tbl : ParticleTable) (id : ℤ) : ℝ :=
  _get_particle_property tbl id (fun def_ => def_.pdgMass) 0

/-- `GetParticleCharge` from `src/physics/Particle.cc:73`. -/
def GetParticleCharge (tbl : ParticleTable) (id : ℤ) : ℝ :=
  _get_particle_property tbl id (fun def_ => def_.pdgCharge) 0

/-- `GetParticleName` from `src/physics/Particle.cc:79`. -/
def GetParticleName (tbl : ParticleTable) (id : ℤ) : String :=
  _get_particle_property tbl id (fun def_ => def_.particleName) ""

/-- `BasicParticle`: integer particle identifier plus Cartesian momentum. -/
structure BasicParticle where
  id : ℤ
  px : ℝ
  py : ℝ
  pz : ℝ
deriving DecidableEq

/-- The momentum vector `G4ThreeVector(px, py, pz)`. -/
def BasicParticle.p (particle : BasicParticle) : G4ThreeVector :=
  ⟨particle.px, particle.py, particle.pz⟩

/-- `BasicParticle::pT` from `src/physics/Particle.cc:85`. -/
def BasicParticle.pT (particle : BasicParticle) : ℝ :=
  let magnitude := particle.p.mag
  if magnitude = 0 then 0
  else magnitude / Real.cosh (artanh (particle.px / magnitude))

/-- `BasicParticle::eta` from `src/physics/Particle.cc:94`. -/
def BasicParticle.eta (particle : BasicParticle) : ℝ :=
  let magnitude := particle.p.mag
  if magnitude = 0 then 0
  else artanh (particle.px / magnitude)

/-- `BasicParticle::phi` from `src/physics/Particle.cc:103`. -/
def BasicParticle.phi (particle : BasicParticle) : ℝ :=
  atan2 particle.py (-particle.pz)

/-- `BasicParticle::pseudo_lorentz_triplet` from `src/physics/Particle.cc:109`. -/
def BasicParticle.pseudo_lorentz_triplet (particle : BasicParticle) : PseudoLorentzTriplet :=
  ConvertToTriplet particle.p

/-- `BasicParticle::mass`: delegates to `GetParticleMass` on the particle's id. -/
def BasicParticle.mass (particle : BasicParticle) (tbl : ParticleTable) : ℝ :=
  GetParticleMass tbl particle.id

/-- `BasicParticle::charge`: delegates to `GetParticleCharge`. -/
def BasicParticle.charge (particle : BasicParticle) (tbl : ParticleTable) : ℝ :=
  GetParticleCharge tbl particle.id

/-- `BasicParticle::p_mag` from `src/physics/Particle.cc:145`. -/
def BasicParticle.p_mag (particle : BasicParticle) : ℝ :=
  particle.p.mag

/-- `BasicParticle::p_unit` from `src/physics/Particle.cc:151`. -/
def BasicParticle.p_unit (particle : BasicParticle) : G4ThreeVector :=
  particle.p.unit

/-- `std::hypot` on two arguments: `sqrt (a^2 + b^2)`. -/
def hypot (a b : ℝ) : ℝ := Real.sqrt (a ^ 2 + b ^ 2)

/-- `BasicParticle::e` from `src/physics/Particle.cc:139`: total energy. -/
def BasicParticle.e (particle : BasicParticle) (tbl : ParticleTable) : ℝ :=
  hypot particle.p_mag (particle.mass tbl)

/-- `BasicParticle::ke` from `src/physics/Particle.cc:133`: kinetic energy. -/
def BasicParticle.ke (particle : BasicParticle) (tbl : ParticleTable) : ℝ :=
  particle.e tbl - particle.mass tbl

/-- `BasicParticle::set_p` (component overload) from `src/physics/Particle.cc:259`. -/
def BasicParticle.set_p (particle : BasicParticle) (new_p : G4ThreeVector) : BasicParticle :=
  { particle with px := new_p.x, py := new_p.y, pz := new_p.z }

/-- `_eta_to_theta` from `src/physics/Particle.cc:177`: pseudorapidity to polar
angle.  The decimal literal `3.1415926535897932384626L` of the source is the
real number π in this model. -/
def _eta_to_theta (eta : ℝ) : ℝ :=
  let subangle := 2 * Real.arctan (Real.exp (-|eta|))
  if eta < 0 then π - subangle else subangle

/-- `_rotate` from `src/physics/Particle.cc:184`: planar rotation by `theta`. -/
def _rotate (x y theta : ℝ) : ℝ × ℝ :=
  (x * Real.cos theta - y * Real.sin theta, x * Real.sin theta + y * Real.cos theta)

/-- `BasicParticle::set_eta` from `src/physics/Particle.cc:196`. -/
def BasicParticle.set_eta (particle : BasicParticle) (new_eta : ℝ) : BasicParticle :=
  let rotation := _rotate particle.px (-particle.pz)
    (_eta_to_theta new_eta - _eta_to_theta particle.eta)
  { particle with px := rotation.1, pz := -rotation.2 }

/-- `BasicParticle::set_phi` from `src/physics/Particle.cc:204`. -/
def BasicParticle.set_phi (particle : BasicParticle) (new_phi : ℝ) : BasicParticle :=
  let rotation := _rotate (-particle.pz) particle.py (new_phi - particle.phi)
  { particle with pz := -rotation.1, py := rotation.2 }

/-- `BasicParticle::set_pseudo_lorentz_triplet` (record overload) from
`src/physics/Particle.cc:226`. -/
def BasicParticle.set_pseudo_lorentz_triplet (particle : BasicParticle)
    (triplet : PseudoLorentzTriplet) : BasicParticle :=
  particle.set_p (ConvertToVector triplet)

/-- `BasicParticle::set_pT` from `src/physics/Particle.cc:163`. -/
def BasicParticle.set_pT (particle : BasicParticle) (new_pT : ℝ) : BasicParticle :=
  particle.set_pseudo_lorentz_triplet ⟨new_pT, particle.eta, particle.phi⟩

/-- `BasicParticle::set_ke` from `src/physics/Particle.cc:232`. -/
def BasicParticle.set_ke (particle : BasicParticle) (tbl : ParticleTable)
    (new_ke : ℝ) : BasicParticle :=
  particle.set_p
    (G4ThreeVector.smul (Real.sqrt (new_ke * (new_ke + 2 * particle.mass tbl)))
      particle.p_unit)

/-- `BasicParticle::set_p_mag` from `src/physics/Particle.cc:238`. -/
def BasicParticle.set_p_mag (particle : BasicParticle) (magnitude : ℝ) : BasicParticle :=
  particle.set_p (G4ThreeVector.smul magnitude particle.p_unit)

/-- `BasicParticle::set_p_unit` (vector overload) from `src/physics/Particle.cc:252`:
`(!magnitude ? 1 : magnitude)` keeps the old magnitude unless it is zero. -/
def BasicParticle.set_p_unit (particle : BasicParticle)
    (new_p_unit : G4ThreeVector) : BasicParticle :=
  particle.set_p
    (G4ThreeVector.smul (if particle.p_mag = 0 then 1 else particle.p_mag) new_p_unit.unit)

/-- `Particle`: a `BasicParticle` together with a spacetime vertex `(t, x, y, z)`. -/
structure Particle where
  id : ℤ
  px : ℝ
  py : ℝ
  pz : ℝ
  t : ℝ
  x : ℝ
  y : ℝ
  z : ℝ
deriving DecidableEq

/-- `Particle::set_vertex(double, double, double)` from `src/physics/Particle.cc:275`. -/
def Particle.set_vertex3 (particle : Particle) (new_x new_y new_z : ℝ) : Particle :=
  { particle with x := new_x, y := new_y, z := new_z }

/-- `Particle::set_vertex(double, double, double, double)` from
`src/physics/Particle.cc:285`. -/
def Particle.set_vertex4 (particle : Particle) (new_t new_x new_y new_z : ℝ) : Particle :=
  { particle with t := new_t, x := new_x, y := new_y, z := new_z }

/-- `Particle::set_vertex(double, const G4ThreeVector&)` from
`src/physics/Particle.cc:297`. -/
def Particle.set_vertexTV (particle : Particle) (new_t : ℝ)
    (vertex : G4ThreeVector) : Particle :=
  particle.set_vertex4 new_t vertex.x vertex.y vertex.z

/-- `Particle::set_vertex(const G4ThreeVector&)` from `src/physics/Particle.cc:304`. -/
def Particle.set_vertexV (particle : Particle) (vertex : G4ThreeVector) : Particle :=
  particle.set_vertex3 vertex.x vertex.y vertex.z

/-! ### Helper lemmas about `artanh`, magnitudes, and `atan2` -/

lemma sqrt_exp_eq (x : ℝ) : Real.sqrt (Real.exp x) = Real.exp (x / 2) := by
  rw [show Real.exp x = Real.exp (x / 2) * Real.exp (x / 2) by
    rw [← Real.exp_add]; ring_nf]
  exact Real.sqrt_mul_self (Real.exp_nonneg _)

lemma exp_artanh {t : ℝ} (h : |t| < 1) :
    Real.exp (artanh t) = Real.sqrt (1 + t) / Real.sqrt (1 - t) := by
  obtain ⟨hl, hr⟩ := abs_lt.mp h
  have h1 : (0:ℝ) < 1 + t := by linarith
  have h2 : (0:ℝ) < 1 - t := by linarith
  have hu : (0:ℝ) < (1 + t) / (1 - t) := div_pos h1 h2
  rw [artanh, ← sqrt_exp_eq, Real.exp_log hu, Real.sqrt_div h1.le]

lemma cosh_artanh {t : ℝ} (h : |t| < 1) :
    Real.cosh (artanh t) = 1 / Real.sqrt (1 - t ^ 2) := by
  obtain ⟨hl, hr⟩ := abs_lt.mp h
  have h1 : (0:ℝ) < 1 + t := by linarith
  have h2 : (0:ℝ) < 1 - t := by linarith
  have ha : 0 < Real.sqrt (1 + t) := Real.sqrt_pos.mpr h1
  have hb : 0 < Real.sqrt (1 - t) := Real.sqrt_pos.mpr h2
  have hab : Real.sqrt (1 + t) * Real.sqrt (1 - t) = Real.sqrt (1 - t ^ 2) := by
    rw [← Real.sqrt_mul h1.le]; ring_nf
  have hsa : Real.sqrt (1 + t) ^ 2 = 1 + t := Real.sq_sqrt h1.le
  have hsb : Real.sqrt (1 - t) ^ 2 = 1 - t := Real.sq_sqrt h2.le
  rw [Real.cosh_eq, exp_artanh h, Real.exp_neg, exp_artanh h, ← hab]
  rw [inv_div]
  field_simp
  nlinarith [hsa, hsb]

lemma sinh_artanh {t : ℝ} (h : |t| < 1) :
    Real.sinh (artanh t) = t / Real.sqrt (1 - t ^ 2) := by
  obtain ⟨hl, hr⟩ := abs_lt.mp h
  have h1 : (0:ℝ) < 1 + t := by linarith
  have h2 : (0:ℝ) < 1 - t := by linarith
  have ha : 0 < Real.sqrt (1 + t) := Real.sqrt_pos.mpr h1
  have hb : 0 < Real.sqrt (1 - t) := Real.sqrt_pos.mpr h2
  have hab : Real.sqrt (1 + t) * Real.sqrt (1 - t) = Real.sqrt (1 - t ^ 2) := by
    rw [← Real.sqrt_mul h1.le]; ring_nf
  have hsa : Real.sqrt (1 + t) ^ 2 = 1 + t := Real.sq_sqrt h1.le
  have hsb : Real.sqrt (1 - t) ^ 2 = 1 - t := Real.sq_sqrt h2.le
  rw [Real.sinh_eq, exp_artanh h, Real.exp_neg, exp_artanh h, ← hab]
  field_simp
  nlinarith [hsa, hsb]

lemma tanh_artanh {t : ℝ} (h : |t| < 1) : Real.tanh (artanh t) = t := by
  have hs : 0 < Real.sqrt (1 - t ^ 2) := by
    apply Real.sqrt_pos.mpr
    have := abs_lt.mp h
    nlinarith [this.1, this.2]
  rw [Real.tanh_eq_sinh_div_cosh, sinh_artanh h, cosh_artanh h]
  field_simp

lemma artanh_zero : artanh 0 = 0 := by simp [artanh]

lemma G4ThreeVector.mag_nonneg (v : G4ThreeVector) : 0 ≤ v.mag :=
  Real.sqrt_nonneg _

lemma G4ThreeVector.sq_mag (v : G4ThreeVector) :
    v.mag ^ 2 = v.x ^ 2 + v.y ^ 2 + v.z ^ 2 :=
  Real.sq_sqrt (by positivity)

lemma G4ThreeVector.mag_eq_zero {v : G4ThreeVector} :
    v.mag = 0 ↔ v.x = 0 ∧ v.y = 0 ∧ v.z = 0 := by
  rw [G4ThreeVector.mag, Real.sqrt_eq_zero (by positivity)]
  constructor
  · intro h
    refine ⟨?_, ?_, ?_⟩ <;> nlinarith
  · rintro ⟨hx, hy, hz⟩
    rw [hx, hy, hz]; ring

lemma atan2_zero_zero : atan2 0 0 = 0 := by
  have : (⟨0, 0⟩ : ℂ) = 0 := Complex.ext rfl rfl
  rw [atan2, this, Complex.arg_zero]

/-! ### C1: round trip of the two conversions -/

/-- **C1**: for every `G4ThreeVector` `v` with `v.y ≠ 0` or `v.z ≠ 0` (hence
nonzero), converting `v` to a `PseudoLorentzTriplet` and converting the result
back reproduces `v` exactly over the reals. -/
theorem convert_round_trip (v : G4ThreeVector) (h : v.y ≠ 0 ∨ v.z ≠ 0) :
    ConvertToVector (ConvertToTriplet v) = v := by
  obtain ⟨x, y, z⟩ := v
  simp only at h
  have hyz : 0 < y ^ 2 + z ^ 2 := by
    rcases h with h | h
    · have := sq_pos_of_ne_zero h
      nlinarith [sq_nonneg z]
    · have := sq_pos_of_ne_zero h
      nlinarith [sq_nonneg y]
  have hm2 : (G4ThreeVector.mk x y z).mag ^ 2 = x ^ 2 + y ^ 2 + z ^ 2 :=
    G4ThreeVector.sq_mag _
  set m := (G4ThreeVector.mk x y z).mag with hm_def
  have hm_pos : 0 < m := by
    have h0 : 0 ≤ m := by
      rw [hm_def]
      exact G4ThreeVector.mag_nonneg _
    rcases eq_or_lt_of_le h0 with he | hlt
    · exfalso
      rw [← he] at hm2
      nlinarith [sq_nonneg x]
    · exact hlt
  have hm_ne : m ≠ 0 := ne_of_gt hm_pos
  set t := x / m with ht_def
  have ht2 : t ^ 2 < 1 := by
    rw [ht_def, div_pow, div_lt_one (by positivity)]
    nlinarith
  have habs : |t| < 1 := (sq_lt_one_iff_abs_lt_one t).mp ht2
  have hconv : ConvertToTriplet ⟨x, y, z⟩ =
      ⟨m / Real.cosh (artanh t), artanh t, atan2 y (-z)⟩ := by
    simp only [ConvertToTriplet, ← hm_def, if_neg hm_ne]
  have h1t : 1 - t ^ 2 = (y ^ 2 + z ^ 2) / m ^ 2 := by
    rw [ht_def, div_pow]
    field_simp
    nlinarith [hm2]
  have hsqrt : Real.sqrt (1 - t ^ 2) = Real.sqrt (y ^ 2 + z ^ 2) / m := by
    rw [h1t, Real.sqrt_div (by positivity), Real.sqrt_sq hm_pos.le]
  set s := Real.sqrt (y ^ 2 + z ^ 2) with hs_def
  have hs_pos : 0 < s := Real.sqrt_pos.mpr hyz
  have hpT : m / Real.cosh (artanh t) = s := by
    rw [cosh_artanh habs, hsqrt]
    field_simp
  have hx_comp : m / Real.cosh (artanh t) * Real.sinh (artanh t) = x := by
    have hc : m / Real.cosh (artanh t) * Real.sinh (artanh t)
        = m * Real.tanh (artanh t) := by
      rw [Real.tanh_eq_sinh_div_cosh]
      ring
    rw [hc, tanh_artanh habs, ht_def]
    field_simp
  have hw_ne : (⟨-z, y⟩ : ℂ) ≠ 0 := by
    intro hcontra
    have hre := congrArg Complex.re hcontra
    have him := congrArg Complex.im hcontra
    simp only [Complex.zero_re, Complex.zero_im] at hre him
    rcases h with h | h
    · exact h him
    · exact h (by linarith [hre])
  have habs_w : Complex.abs ⟨-z, y⟩ = s := by
    rw [Complex.abs_apply, Complex.normSq_mk, hs_def]
    ring_nf
  have hsin : Real.sin (atan2 y (-z)) = y / s := by
    rw [atan2, Complex.sin_arg, habs_w]
  have hcos : Real.cos (atan2 y (-z)) = -z / s := by
    rw [atan2, Complex.cos_arg hw_ne, habs_w]
  rw [hconv]
  simp only [ConvertToVector, G4ThreeVector.mk.injEq]
  refine ⟨hx_comp, ?_, ?_⟩
  · rw [hpT, hsin]
    field_simp
  · rw [hpT, hcos]
    field_simp

/-- **C1 witness**: the round trip evaluated at the concrete vector `(3, 4, 0)`. -/
theorem convert_round_trip_witness :
    ConvertToVector (ConvertToTriplet ⟨3, 4, 0⟩) = ⟨3, 4, 0⟩ :=
  convert_round_trip ⟨3, 4, 0⟩ (Or.inl (by norm_num))

/-! ### C2: the zero momentum is a fixed point of both conversions -/

/-- **C2**: `Convert` applied to the zero `G4ThreeVector` returns the triplet
`{pT = 0, eta = 0, phi = 0}`, and `Convert` applied to the triplet `{0, 0, 0}`
returns the zero vector. -/
theorem convert_zero_fixed_point :
    ConvertToTriplet ⟨0, 0, 0⟩ = ⟨0, 0, 0⟩ ∧ ConvertToVector ⟨0, 0, 0⟩ = ⟨0, 0, 0⟩ := by
  constructor
  · simp [ConvertToTriplet, G4ThreeVector.mag]
  · simp [ConvertToVector]

/-! ### C3: the scalar getters agree with the triplet conversion -/

/-- **C3**: for every `BasicParticle` state, `pT()`, `eta()` and `phi()` return
exactly the fields of `Convert({px, py, pz})` (equivalently of
`pseudo_lorentz_triplet()`), including at the zero-momentum state. -/
theorem getters_match_triplet (particle : BasicParticle) :
    particle.pT = (ConvertToTriplet particle.p).pT ∧
    particle.eta = (ConvertToTriplet particle.p).eta ∧
    particle.phi = (ConvertToTriplet particle.p).phi ∧
    particle.pseudo_lorentz_triplet = ConvertToTriplet particle.p := by
  refine ⟨?_, ?_, ?_, rfl⟩
  · simp only [BasicParticle.pT, ConvertToTriplet, BasicParticle.p]
    by_cases hm : (G4ThreeVector.mk particle.px particle.py particle.pz).mag = 0
    · simp [hm]
    · simp [hm]
  · simp only [BasicParticle.eta, ConvertToTriplet, BasicParticle.p]
    by_cases hm : (G4ThreeVector.mk particle.px particle.py particle.pz).mag = 0
    · simp [hm]
    · simp [hm]
  · simp only [BasicParticle.phi, ConvertToTriplet, BasicParticle.p]
    by_cases hm : (G4ThreeVector.mk particle.px particle.py particle.pz).mag = 0
    · have h3 := G4ThreeVector.mag_eq_zero.mp hm
      have hy : particle.py = 0 := h3.2.1
      have hz : particle.pz = 0 := h3.2.2
      rw [if_pos hm]
      simp only [hy, hz, neg_zero]
      exact atan2_zero_zero
    · simp [hm]

/-! ### C7: sentinel behaviour of the particle-property lookup -/

/-- **C7**: for `id = 0` the lookups return `0`, `0` and `""` for every possible
state of the external table (so the table is never consulted), and for every
nonzero `id` they return exactly the corresponding property of the table entry. -/
theorem particle_lookup_sentinel :
    (∀ tbl : ParticleTable,
      GetParticleMass tbl 0 = 0 ∧ GetParticleCharge tbl 0 = 0 ∧
      GetParticleName tbl 0 = "") ∧
    (∀ (tbl : ParticleTable) (id : ℤ), id ≠ 0 →
      GetParticleMass tbl id = (tbl id).pdgMass ∧
      GetParticleCharge tbl id = (tbl id).pdgCharge ∧
      GetParticleName tbl id = (tbl id).particleName) := by
  constructor
  · intro tbl
    refine ⟨rfl, rfl, rfl⟩
  · intro tbl id hid
    refine ⟨?_, ?_, ?_⟩ <;>
      simp [GetParticleMass, GetParticleCharge, GetParticleName,
        _get_particle_property, hid]

/-- **C7 witness**: a concrete table consulted at the nonzero id `13`. -/
theorem particle_lookup_sentinel_witness :
    GetParticleMass (fun _ => ⟨7, -1, "mu"⟩) 13 = 7 :=
  (particle_lookup_sentinel.2 (fun _ => ⟨7, -1, "mu"⟩) 13 (by norm_num)).1

/-! ### C9: `set_p_unit` keeps the magnitude and replaces the direction -/

lemma BasicParticle.p_set_p (particle : BasicParticle) (w : G4ThreeVector) :
    (particle.set_p w).p = w := by
  cases w
  rfl

lemma G4ThreeVector.mag_smul (r : ℝ) (v : G4ThreeVector) :
    (G4ThreeVector.smul r v).mag = |r| * v.mag := by
  simp only [G4ThreeVector.smul, G4ThreeVector.mag]
  rw [show (r * v.x) ^ 2 + (r * v.y) ^ 2 + (r * v.z) ^ 2
      = r ^ 2 * (v.x ^ 2 + v.y ^ 2 + v.z ^ 2) by ring]
  rw [Real.sqrt_mul (sq_nonneg r), Real.sqrt_sq_eq_abs]

lemma G4ThreeVector.unit_eq_smul (v : G4ThreeVector) :
    v.unit = G4ThreeVector.smul v.mag⁻¹ v := by
  simp only [G4ThreeVector.unit, G4ThreeVector.smul, div_eq_inv_mul]

lemma G4ThreeVector.mag_unit {v : G4ThreeVector} (h : v.mag ≠ 0) :
    v.unit.mag = 1 := by
  rw [G4ThreeVector.unit_eq_smul, G4ThreeVector.mag_smul, abs_inv,
    abs_of_nonneg (G4ThreeVector.mag_nonneg v), inv_mul_cancel₀ h]

/-- **C9**: after `set_p_unit(newDirection)` the momentum equals
`(old p_mag, or 1 if the old p_mag was 0)` times the unit vector of
`newDirection`; in particular, when both the current momentum and the new
direction are nonzero, the magnitude is preserved. -/
theorem set_p_unit_spec (particle : BasicParticle) (new_p_unit : G4ThreeVector) :
    (particle.set_p_unit new_p_unit).p =
      G4ThreeVector.smul (if particle.p_mag = 0 then 1 else particle.p_mag)
        new_p_unit.unit ∧
    (new_p_unit.mag ≠ 0 → particle.p_mag ≠ 0 →
      (particle.set_p_unit new_p_unit).p_mag = particle.p_mag) := by
  constructor
  · exact BasicParticle.p_set_p particle _
  · intro hd hp
    rw [BasicParticle.p_mag, BasicParticle.set_p_unit, BasicParticle.p_set_p,
      G4ThreeVector.mag_smul, G4ThreeVector.mag_unit hd, if_neg hp, mul_one,
      abs_of_nonneg]
    exact le_of_lt (lt_of_le_of_ne (G4ThreeVector.mag_nonneg particle.p) (Ne.symm hp))

/-- **C9 witness**: magnitude preservation at the concrete record with momentum
`(3, 4, 0)` and new direction `(0, 0, 2)`. -/
theorem set_p_unit_spec_witness :
    (BasicParticle.set_p_unit ⟨0, 3, 4, 0⟩ ⟨0, 0, 2⟩).p_mag =
      BasicParticle.p_mag ⟨0, 3, 4, 0⟩ := by
  have hd : (G4ThreeVector.mk 0 0 2).mag ≠ 0 := by
    rw [G4ThreeVector.mag]
    exact ne_of_gt (Real.sqrt_pos.mpr (by norm_num))
  have hp : (BasicParticle.mk 0 3 4 0).p_mag ≠ 0 := by
    rw [BasicParticle.p_mag, BasicParticle.p, G4ThreeVector.mag]
    exact ne_of_gt (Real.sqrt_pos.mpr (by norm_num))
  exact (set_p_unit_spec ⟨0, 3, 4, 0⟩ ⟨0, 0, 2⟩).2 hd hp

/-! ### C8: properties of the pseudorapidity-to-polar-angle conversion -/

lemma tanh_strictMono : StrictMono Real.tanh := by
  intro a b hab
  have hca := Real.cosh_pos a
  have hcb := Real.cosh_pos b
  rw [Real.tanh_eq_sinh_div_cosh, Real.tanh_eq_sinh_div_cosh,
    div_lt_div_iff₀ hca hcb]
  have hs : 0 < Real.sinh (b - a) := Real.sinh_pos_iff.mpr (by linarith)
  rw [Real.sinh_sub] at hs
  linarith

lemma cos_eta_to_theta (eta : ℝ) :
    Real.cos (_eta_to_theta eta) = Real.tanh eta := by
  have hv : 0 < Real.exp eta := Real.exp_pos eta
  have huv : Real.exp (-eta) * Real.exp eta = 1 := by
    rw [← Real.exp_add]
    simp
  have htanh : Real.tanh eta
      = (Real.exp eta - Real.exp (-eta)) / (Real.exp eta + Real.exp (-eta)) := by
    rw [Real.tanh_eq_sinh_div_cosh, Real.sinh_eq, Real.cosh_eq]
    have hne : Real.exp eta + Real.exp (-eta) ≠ 0 := by positivity
    field_simp
  have hden : ∀ u : ℝ, (0:ℝ) < 1 + u ^ 2 := fun u => by positivity
  have hcos2 : ∀ u : ℝ, Real.cos (2 * Real.arctan u) = (1 - u ^ 2) / (1 + u ^ 2) := by
    intro u
    rw [Real.cos_two_mul, Real.cos_arctan]
    have hsq : Real.sqrt (1 + u ^ 2) ^ 2 = 1 + u ^ 2 := Real.sq_sqrt (hden u).le
    rw [div_pow, one_pow, hsq]
    field_simp
    ring
  by_cases heta : eta < 0
  · have habs : |eta| = -eta := abs_of_neg heta
    simp only [_eta_to_theta, if_pos heta, habs, neg_neg]
    rw [Real.cos_pi_sub, hcos2, htanh]
    have h1 : (0:ℝ) < 1 + Real.exp eta ^ 2 := hden _
    have h2 : (0:ℝ) < Real.exp eta + Real.exp (-eta) := by positivity
    field_simp
    nlinarith [huv]
  · have habs : |eta| = eta := abs_of_nonneg (not_lt.mp heta)
    simp only [_eta_to_theta, if_neg heta, habs]
    rw [hcos2, htanh]
    have h1 : (0:ℝ) < 1 + Real.exp (-eta) ^ 2 := hden _
    have h2 : (0:ℝ) < Real.exp eta + Real.exp (-eta) := by positivity
    field_simp
    nlinarith [huv]

lemma eta_to_theta_mem (eta : ℝ) : _eta_to_theta eta ∈ Set.Ioo 0 π := by
  have harc_pos : ∀ u : ℝ, 0 < u → 0 < Real.arctan u := by
    intro u hu
    have := Real.arctan_strictMono hu
    rwa [Real.arctan_zero] at this
  have harc_le : ∀ u : ℝ, u ≤ 1 → Real.arctan u ≤ π / 4 := by
    intro u hu
    have := Real.arctan_strictMono.monotone hu
    rwa [Real.arctan_one] at this
  by_cases heta : eta < 0
  · have habs : |eta| = -eta := abs_of_neg heta
    simp only [_eta_to_theta, if_pos heta, habs, neg_neg, Set.mem_Ioo]
    have hpos := harc_pos _ (Real.exp_pos eta)
    have hle := harc_le _ (Real.exp_le_one_iff.mpr heta.le)
    constructor
    · nlinarith [Real.pi_pos]
    · nlinarith
  · have habs : |eta| = eta := abs_of_nonneg (not_lt.mp heta)
    simp only [_eta_to_theta, if_neg heta, habs, Set.mem_Ioo]
    have hpos := harc_pos _ (Real.exp_pos (-eta))
    have hle := harc_le (Real.exp (-eta))
      (Real.exp_le_one_iff.mpr (neg_nonpos.mpr (not_lt.mp heta)))
    constructor
    · linarith
    · nlinarith [Real.pi_pos]

lemma eta_to_theta_strictAnti : StrictAnti _eta_to_theta := by
  intro a b hab
  have hc : Real.cos (_eta_to_theta a) < Real.cos (_eta_to_theta b) := by
    rw [cos_eta_to_theta, cos_eta_to_theta]
    exact tanh_strictMono hab
  rcases lt_trichotomy (_eta_to_theta b) (_eta_to_theta a) with h | h | h
  · exact h
  · rw [h] at hc
    exact absurd hc (lt_irrefl _)
  · exfalso
    have hmema := eta_to_theta_mem a
    have hmemb := eta_to_theta_mem b
    have := Real.strictAntiOn_cos ⟨hmema.1.le, hmema.2.le⟩ ⟨hmemb.1.le, hmemb.2.le⟩ h
    linarith

lemma eta_to_theta_tendsto_atTop : Tendsto _eta_to_theta atTop (nhds 0) := by
  have hev : _eta_to_theta =ᶠ[atTop] fun eta => 2 * Real.arctan (Real.exp (-eta)) := by
    filter_upwards [eventually_ge_atTop (0:ℝ)] with eta heta
    simp [_eta_to_theta, not_lt.mpr heta, abs_of_nonneg heta]
  rw [Filter.tendsto_congr' hev]
  have h1 : Tendsto (fun eta : ℝ => Real.exp (-eta)) atTop (nhds 0) :=
    Real.tendsto_exp_atBot.comp tendsto_neg_atTop_atBot
  have h2 : Tendsto (fun eta : ℝ => Real.arctan (Real.exp (-eta))) atTop (nhds 0) := by
    have := (Real.continuous_arctan.tendsto 0).comp h1
    simpa [Real.arctan_zero] using this
  have h3 := h2.const_mul (2:ℝ)
  simpa using h3

lemma eta_to_theta_tendsto_atBot : Tendsto _eta_to_theta atBot (nhds π) := by
  have hev : _eta_to_theta =ᶠ[atBot] fun eta => π - 2 * Real.arctan (Real.exp eta) := by
    filter_upwards [eventually_lt_atBot (0:ℝ)] with eta heta
    simp [_eta_to_theta, heta, abs_of_neg heta]
  rw [Filter.tendsto_congr' hev]
  have h2 : Tendsto (fun eta : ℝ => Real.arctan (Real.exp eta)) atBot (nhds 0) := by
    have := (Real.continuous_arctan.tendsto 0).comp Real.tendsto_exp_atBot
    simpa [Real.arctan_zero] using this
  have h3 := h2.const_mul (2:ℝ)
  have h4 : Tendsto (fun eta : ℝ => π - 2 * Real.arctan (Real.exp eta)) atBot
      (nhds (π - 2 * 0)) := (tendsto_const_nhds).sub (by simpa using h3)
  simpa using h4

/-- **C8**: `_eta_to_theta` returns `subangle = 2·atan(exp(-|eta|))` for
`eta ≥ 0` and `π - subangle` otherwise; it is strictly decreasing on all of ℝ,
equals `π/2` at `0`, tends to `0` at `+∞` and to `π` at `-∞`. -/
theorem eta_to_theta_spec :
    (∀ eta : ℝ, 0 ≤ eta → _eta_to_theta eta = 2 * Real.arctan (Real.exp (-|eta|))) ∧
    (∀ eta : ℝ, eta < 0 →
      _eta_to_theta eta = π - 2 * Real.arctan (Real.exp (-|eta|))) ∧
    StrictAnti _eta_to_theta ∧
    _eta_to_theta 0 = π / 2 ∧
    Tendsto _eta_to_theta atTop (nhds 0) ∧
    Tendsto _eta_to_theta atBot (nhds π) := by
  refine ⟨?_, ?_, eta_to_theta_strictAnti, ?_, eta_to_theta_tendsto_atTop,
    eta_to_theta_tendsto_atBot⟩
  · intro eta heta
    simp [_eta_to_theta, not_lt.mpr heta]
  · intro eta heta
    simp [_eta_to_theta, heta]
  · rw [show _eta_to_theta 0 = 2 * Real.arctan (Real.exp (-|0|)) by
      simp [_eta_to_theta]]
    rw [abs_zero, neg_zero, Real.exp_zero, Real.arctan_one]
    ring

/-- **C8 witness**: the branch equations instantiated at `eta = 1` and
`eta = -1`, and the midpoint value at `0`. -/
theorem eta_to_theta_spec_witness :
    _eta_to_theta 1 = 2 * Real.arctan (Real.exp (-|1|)) ∧
    _eta_to_theta (-1) = π - 2 * Real.arctan (Real.exp (-|(-1:ℝ)|)) ∧
    _eta_to_theta 0 = π / 2 :=
  ⟨eta_to_theta_spec.1 1 (by norm_num), eta_to_theta_spec.2.1 (-1) (by norm_num),
    eta_to_theta_spec.2.2.2.1⟩

/-! ### C5: `set_phi` isolation -/

lemma mk_polar_eq (r φ : ℝ) :
    (⟨r * Real.cos φ, r * Real.sin φ⟩ : ℂ)
      = (r : ℂ) * (Complex.cos φ + Complex.sin φ * Complex.I) := by
  apply Complex.ext
  · simp [← Complex.ofReal_cos, ← Complex.ofReal_sin]
  · simp [← Complex.ofReal_cos, ← Complex.ofReal_sin]

lemma arg_mk_polar {r φ : ℝ} (hr : 0 < r) (hφ : φ ∈ Set.Ioc (-π) π) :
    Complex.arg ⟨r * Real.cos φ, r * Real.sin φ⟩ = φ := by
  rw [mk_polar_eq, Complex.arg_mul_cos_add_sin_mul_I hr hφ]

lemma arg_mk_polar_mod {r φ : ℝ} (hr : 0 < r) :
    Complex.arg ⟨r * Real.cos φ, r * Real.sin φ⟩
      = toIocMod Real.two_pi_pos (-π) φ := by
  rw [mk_polar_eq, Complex.arg_real_mul _ hr,
    Complex.arg_cos_add_sin_mul_I_eq_toIocMod]

/-- **C5 (amended)**: after `set_phi(new_phi)`, the `px` field and `p_mag()` are
unchanged for every record; and whenever the transverse momentum is nonzero
(`py ≠ 0` or `pz ≠ 0`), `phi()` returns `new_phi` normalized to the principal
`atan2` branch `(-π, π]` — in particular exactly `new_phi` whenever `new_phi`
already lies on that branch. -/
theorem set_phi_isolation (particle : BasicParticle) (new_phi : ℝ) :
    (particle.set_phi new_phi).px = particle.px ∧
    (particle.set_phi new_phi).p_mag = particle.p_mag ∧
    ((particle.py ≠ 0 ∨ particle.pz ≠ 0) →
      (particle.set_phi new_phi).phi = toIocMod Real.two_pi_pos (-π) new_phi) ∧
    ((particle.py ≠ 0 ∨ particle.pz ≠ 0) → new_phi ∈ Set.Ioc (-π) π →
      (particle.set_phi new_phi).phi = new_phi) := by
  obtain ⟨id, px, py, pz⟩ := particle
  have hmod : (py ≠ 0 ∨ pz ≠ 0) →
      (BasicParticle.set_phi ⟨id, px, py, pz⟩ new_phi).phi
        = toIocMod Real.two_pi_pos (-π) new_phi := by
    intro h
    have hw_ne : (⟨-pz, py⟩ : ℂ) ≠ 0 := by
      intro hcontra
      have hre := congrArg Complex.re hcontra
      have him := congrArg Complex.im hcontra
      simp only [Complex.zero_re, Complex.zero_im] at hre him
      rcases h with h | h
      · exact h him
      · exact h (by linarith [hre])
    set r := Complex.abs ⟨-pz, py⟩ with hr_def
    have hr_pos : 0 < r := Complex.abs.pos hw_ne
    have hphi0arg : BasicParticle.phi ⟨id, px, py, pz⟩ = Complex.arg ⟨-pz, py⟩ := rfl
    set φ0 := BasicParticle.phi ⟨id, px, py, pz⟩ with hphi0
    have hcosφ : Real.cos φ0 = -pz / r := by
      rw [hphi0arg]
      exact Complex.cos_arg hw_ne
    have hsinφ : Real.sin φ0 = py / r := by
      rw [hphi0arg]
      exact Complex.sin_arg _
    have hpz : -pz = r * Real.cos φ0 := by
      rw [hcosφ]
      field_simp
      ring
    have hpy : py = r * Real.sin φ0 := by
      rw [hsinφ]
      field_simp
    have hnew : φ0 + (new_phi - φ0) = new_phi := by ring
    have hrot1 : (_rotate (-pz) py (new_phi - φ0)).1 = r * Real.cos new_phi := by
      simp only [_rotate]
      rw [hpz, hpy, ← hnew, Real.cos_add]
      ring_nf
    have hrot2 : (_rotate (-pz) py (new_phi - φ0)).2 = r * Real.sin new_phi := by
      simp only [_rotate]
      rw [hpz, hpy, ← hnew, Real.sin_add]
      ring_nf
    show atan2 _ _ = _
    simp only [BasicParticle.set_phi, ← hphi0]
    rw [neg_neg, hrot1, hrot2]
    exact arg_mk_polar_mod hr_pos
  refine ⟨rfl, ?_, hmod, ?_⟩
  · show Real.sqrt _ = Real.sqrt _
    have hrot := Real.sin_sq_add_cos_sq (new_phi - BasicParticle.phi ⟨id, px, py, pz⟩)
    simp only [BasicParticle.set_phi, _rotate, BasicParticle.p_mag, BasicParticle.p,
      G4ThreeVector.mag]
    congr 1
    nlinarith [hrot]
  · intro h hrange
    rw [hmod h]
    exact (toIocMod_eq_self Real.two_pi_pos).mpr ⟨hrange.1, by linarith [hrange.2]⟩

/-- **C5 counterexample**: the claim quantifies over every record, but at the
pure-longitudinal record `(px, py, pz) = (1, 0, 0)` the rotation acts on the
zero transverse pair, so `set_phi 1` leaves the record unchanged and `phi()`
stays `0 ≠ 1` (and `1` already lies on the principal branch). -/
theorem set_phi_claim_counterexample :
    BasicParticle.set_phi ⟨0, 1, 0, 0⟩ 1 = ⟨0, 1, 0, 0⟩ ∧
    (BasicParticle.set_phi ⟨0, 1, 0, 0⟩ 1).phi ≠ 1 := by
  have h1 : BasicParticle.set_phi ⟨0, 1, 0, 0⟩ 1 = ⟨0, 1, 0, 0⟩ := by
    simp [BasicParticle.set_phi, _rotate]
  refine ⟨h1, ?_⟩
  rw [h1]
  have h2 : BasicParticle.phi ⟨0, 1, 0, 0⟩ = 0 := by
    show atan2 0 (-0) = 0
    rw [neg_zero]
    exact atan2_zero_zero
  rw [h2]
  norm_num

/-- **C5 witness**: `set_phi (π/2)` on the record with momentum `(0, 1, 0)`
lands exactly at `phi() = π/2`. -/
theorem set_phi_isolation_witness :
    (BasicParticle.set_phi ⟨0, 0, 1, 0⟩ (π / 2)).phi = π / 2 :=
  (set_phi_isolation ⟨0, 0, 1, 0⟩ (π / 2)).2.2.2 (Or.inl one_ne_zero)
    ⟨by linarith [Real.pi_pos], by linarith [Real.pi_pos]⟩

/-! ### C4: `set_eta` fails to set the pseudorapidity -/

/-- **C4 (code bug evaluation)**: at the record with momentum `(0, 1, 0)` the
rotation of `set_eta` acts on the zero pair `(px, -pz) = (0, 0)`, so
`set_eta 1` leaves the record unchanged and `eta()` stays `0`, not `1`.  The
claim (and the design document) assert `eta() ≈ new_eta` for any record; the
code only achieves this when the transverse momentum lies along `-z`. -/
theorem set_eta_does_not_set_eta :
    BasicParticle.set_eta ⟨0, 0, 1, 0⟩ 1 = ⟨0, 0, 1, 0⟩ ∧
    (BasicParticle.set_eta ⟨0, 0, 1, 0⟩ 1).eta = 0 ∧
    (BasicParticle.set_eta ⟨0, 0, 1, 0⟩ 1).eta ≠ 1 := by
  have h1 : BasicParticle.set_eta ⟨0, 0, 1, 0⟩ 1 = ⟨0, 0, 1, 0⟩ := by
    simp [BasicParticle.set_eta, _rotate]
  have h2 : BasicParticle.eta ⟨0, 0, 1, 0⟩ = 0 := by
    simp [BasicParticle.eta, BasicParticle.p, artanh_zero]
  refine ⟨h1, ?_, ?_⟩
  · rw [h1, h2]
  · rw [h1, h2]
    norm_num

/-! ### C6: `set_ke` inverts the kinetic-energy relation -/

/-- **C6 (amended)**: `set_ke(k)` always sets the momentum to
`sqrt(k·(k + 2·mass()))` times the current unit direction; and whenever
`k ≥ 0`, the mass is nonnegative and the current momentum magnitude is
nonzero, reading `ke()` afterwards returns exactly `k`. -/
theorem set_ke_inverse (particle : BasicParticle) (tbl : ParticleTable) (new_ke : ℝ) :
    (particle.set_ke tbl new_ke).p =
      G4ThreeVector.smul (Real.sqrt (new_ke * (new_ke + 2 * particle.mass tbl)))
        particle.p_unit ∧
    (0 ≤ new_ke → 0 ≤ particle.mass tbl → particle.p_mag ≠ 0 →
      (particle.set_ke tbl new_ke).ke tbl = new_ke) := by
  constructor
  · exact BasicParticle.p_set_p particle _
  · intro hke hm hp
    have hmass_eq : (particle.set_ke tbl new_ke).mass tbl = particle.mass tbl := rfl
    have harg : 0 ≤ new_ke * (new_ke + 2 * particle.mass tbl) := by nlinarith
    have hs_nonneg : 0 ≤ Real.sqrt (new_ke * (new_ke + 2 * particle.mass tbl)) :=
      Real.sqrt_nonneg _
    have hpmag : (particle.set_ke tbl new_ke).p_mag =
        Real.sqrt (new_ke * (new_ke + 2 * particle.mass tbl)) := by
      rw [BasicParticle.p_mag, BasicParticle.set_ke, BasicParticle.p_set_p,
        G4ThreeVector.mag_smul, BasicParticle.p_unit, G4ThreeVector.mag_unit hp,
        mul_one, abs_of_nonneg hs_nonneg]
    rw [BasicParticle.ke, BasicParticle.e, hmass_eq, hpmag, hypot]
    rw [Real.sq_sqrt harg]
    rw [show new_ke * (new_ke + 2 * particle.mass tbl) + particle.mass tbl ^ 2
        = (new_ke + particle.mass tbl) ^ 2 by ring]
    rw [Real.sqrt_sq (by linarith)]
    ring

/-- **C6 counterexample**: the claim quantifies over every `BasicParticle`, but
at the zero-momentum record (id 13, table mass 1) the unit direction is the
zero vector, so `set_ke 1` leaves the momentum zero and `ke()` returns `0`,
not `1`. -/
theorem set_ke_claim_counterexample :
    (BasicParticle.set_ke ⟨13, 0, 0, 0⟩ (fun _ => ⟨1, 0, "X"⟩) 1).ke
        (fun _ => ⟨1, 0, "X"⟩) = 0 ∧
    (BasicParticle.set_ke ⟨13, 0, 0, 0⟩ (fun _ => ⟨1, 0, "X"⟩) 1).ke
        (fun _ => ⟨1, 0, "X"⟩) ≠ 1 := by
  have hq : BasicParticle.set_ke ⟨13, 0, 0, 0⟩ (fun _ => ⟨1, 0, "X"⟩) 1
      = ⟨13, 0, 0, 0⟩ := by
    simp [BasicParticle.set_ke, BasicParticle.set_p, BasicParticle.p_unit,
      BasicParticle.p, G4ThreeVector.unit, G4ThreeVector.smul]
  have hmass : BasicParticle.mass ⟨13, 0, 0, 0⟩ (fun _ => ⟨1, 0, "X"⟩) = 1 := by
    simp [BasicParticle.mass, GetParticleMass, _get_particle_property]
  have hmag0 : G4ThreeVector.mag ⟨0, 0, 0⟩ = 0 := by
    simp [G4ThreeVector.mag]
  have hke : (BasicParticle.mk 13 0 0 0).ke (fun _ => ⟨1, 0, "X"⟩) = 0 := by
    rw [BasicParticle.ke, BasicParticle.e, hmass, BasicParticle.p_mag,
      BasicParticle.p, hypot, hmag0]
    norm_num
  rw [hq, hke]
  norm_num

/-- **C6 witness**: `set_ke 5` on the massless record (sentinel id `0`) with
momentum `(3, 4, 0)` yields `ke() = 5`. -/
theorem set_ke_inverse_witness :
    (BasicParticle.set_ke ⟨0, 3, 4, 0⟩ (fun _ => ⟨2, 0, "e"⟩) 5).ke
        (fun _ => ⟨2, 0, "e"⟩) = 5 := by
  have hm : (0:ℝ) ≤ BasicParticle.mass ⟨0, 3, 4, 0⟩ (fun _ => ⟨2, 0, "e"⟩) := by
    norm_num [BasicParticle.mass, GetParticleMass, _get_particle_property]
  have hp : BasicParticle.p_mag ⟨0, 3, 4, 0⟩ ≠ 0 := by
    rw [BasicParticle.p_mag, BasicParticle.p, G4ThreeVector.mag]
    exact ne_of_gt (Real.sqrt_pos.mpr (by norm_num))
  exact (set_ke_inverse ⟨0, 3, 4, 0⟩ (fun _ => ⟨2, 0, "e"⟩) 5).2 (by norm_num) hm hp

/-! ### C10: vertex setters do not touch the kinematic state -/

/-- **C10**: every `Particle::set_vertex` overload leaves `id`, `px`, `py`, `pz`
unchanged, and the overloads without a time argument also leave `t` unchanged. -/
theorem set_vertex_preserves_kinematics (p : Physics.Particle)
    (new_t new_x new_y new_z : ℝ) (vertex : G4ThreeVector) :
    ((p.set_vertex3 new_x new_y new_z).id = p.id ∧
     (p.set_vertex3 new_x new_y new_z).px = p.px ∧
     (p.set_vertex3 new_x new_y new_z).py = p.py ∧
     (p.set_vertex3 new_x new_y new_z).pz = p.pz ∧
     (p.set_vertex3 new_x new_y new_z).t = p.t) ∧
    ((p.set_vertex4 new_t new_x new_y new_z).id = p.id ∧
     (p.set_vertex4 new_t new_x new_y new_z).px = p.px ∧
     (p.set_vertex4 new_t new_x new_y new_z).py = p.py ∧
     (p.set_vertex4 new_t new_x new_y new_z).pz = p.pz) ∧
    ((p.set_vertexTV new_t vertex).id = p.id ∧
     (p.set_vertexTV new_t vertex).px = p.px ∧
     (p.set_vertexTV new_t vertex).py = p.py ∧
     (p.set_vertexTV new_t vertex).pz = p.pz) ∧
    ((p.set_vertexV vertex).id = p.id ∧
     (p.set_vertexV vertex).px = p.px ∧
     (p.set_vertexV vertex).py = p.py ∧
     (p.set_vertexV vertex).pz = p.pz ∧
     (p.set_vertexV vertex).t = p.t) := by
  refine ⟨⟨rfl, rfl, rfl, rfl, rfl⟩, ⟨rfl, rfl, rfl, rfl⟩,
    ⟨rfl, rfl, rfl, rfl⟩, rfl, rfl, rfl, rfl, rfl⟩

end Physics

end
